import Mathlib

/-!
# goCRUDDocker: the in-memory task server of `main.go`

A shallow embedding of the three HTTP handlers of `main.go` (`rootHandler`,
`tasksHandler`, `taskHandler`) over the package-level slice `tasks`, written as
pure functions from the slice before a request to the response and the slice
after it.

Library calls are kept at the level at which the source makes them:

* `json.NewDecoder(r.Body).Decode(&task)` on a zero `Task` is the argument
  `decode : String → Except String Task`; the error carries `err.Error()`.
* `uuid.New().String()` is the argument `uuid : String`.
* what a handler writes is a `Response`: the status code (200 when the handler
  never calls `WriteHeader`) and the value handed to the writer
  (`http.Error`'s message, the value given to `Encode`, the `Fprintf` call).
-/

namespace GoCRUD

/-! ## Data model -/

/-- Task represents a to-do task (`type Task struct`). -/
structure Task where
  ID : String
  Title : String
  Status : String
deriving DecidableEq, Repr

/-- The parts of `*http.Request` the handlers read: `r.Method`, `r.URL.Path`, `r.Body`. -/
structure Request where
  Method : String
  Path : String
  Body : String
deriving DecidableEq, Repr

/-- What a handler hands to the `http.ResponseWriter`. -/
inductive Payload where
  /-- nothing is written -/
  | empty
  /-- the message passed to `http.Error` -/
  | text (msg : String)
  /-- the call `fmt.Fprintf(w, format, args...)` -/
  | printf (format : String) (args : List String)
  /-- the task given to `json.NewEncoder(w).Encode` -/
  | jsonTask (t : Task)
  /-- the slice given to `json.NewEncoder(w).Encode` -/
  | jsonTasks (ts : List Task)
deriving DecidableEq, Repr

/-- Status code and payload of one response. -/
structure Response where
  status : Nat
  body : Payload
deriving DecidableEq, Repr

/-! ## Constants -/

def StatusOK : Nat := 200
def StatusCreated : Nat := 201
def StatusBadRequest : Nat := 400
def StatusNotFound : Nat := 404
def StatusMethodNotAllowed : Nat := 405

def Dport : String := ":8012"

def studentID : String := "500230292"

def githubRepoURL : String := "https://github.com/hammadCodes/goCRUDDocker"

def apiGuideMessage : String :=
  "\n\t\tThis is a simple to-do task server. Which is integared with Docker as well. This server allows you to perform CRUD (Create, Read, Update, Delete) operations on tasks.\n" ++
  "\n\t\t- To view this guide, send a GET request to /.\n" ++
  "\t\t- To view all tasks, send a GET request to /tasks.\n" ++
  "\t\t- To create a new task, send a POST request to /tasks with a JSON body containing \"title\" and \"status\" fields.\n" ++
  "\t\t\tExample: \x7b\"title\": \"Task 1\", \"status\": \"pending\"\x7d\n" ++
  "\t\t- To update a task, send a PUT request to /task/\x7bid\x7d with the updated task details in the JSON body.\n" ++
  "\t\t- To delete a task, send a DELETE request to /task/\x7bid\x7d.\n" ++
  "\t\t- A new root handler function has been added to the server to display the API guide message.\n" ++
  "\n\t\tThe more documentation for github at: https://github.com/hammadCodes/goCRUDDocker\n" ++
  "\t\tThe more documentation for docker at: https://hub.docker.com/repository/docker/hammadcodes/gocruddocker/general\n" ++
  "\n\t\tStudent ID: %s\n" ++
  "\t\tGitHub Repository: %s\n" ++
  "\t\t"

/-! ## Library calls -/

/-- The call `strings.TrimPrefix(s, p)`: `s` without the leading `p` when `s` starts with
`p`, otherwise `s` itself. -/
def TrimPrefix (s p : String) : String :=
  if p.data.isPrefixOf s.data then String.mk (s.data.drop p.data.length) else s

/-- The call `http.Error(w, error, code)`: status `code`, message `error`, which the
library sends as one line of plain text. -/
def httpError (error : String) (code : Nat) : Response :=
  ⟨code, Payload.text error⟩

/-! ## Handlers -/

/-- Handle requests to the "/" endpoint. -/
def rootHandler (tasks : List Task) (_r : Request) : Response × List Task :=
  (⟨StatusOK, Payload.printf apiGuideMessage [studentID, githubRepoURL]⟩, tasks)

/-- Handle requests to the /tasks endpoint. -/
def tasksHandler (decode : String → Except String Task) (uuid : String)
    (tasks : List Task) (r : Request) : Response × List Task :=
  if r.Method = "GET" then
    (⟨StatusOK, Payload.jsonTasks tasks⟩, tasks)
  else if r.Method = "POST" then
    match decode r.Body with
    | Except.error err => (httpError err StatusBadRequest, tasks)
    | Except.ok task =>
      let task := { task with ID := uuid }
      let tasks := tasks ++ [task]
      (⟨StatusCreated, Payload.jsonTask task⟩, tasks)
  else
    (⟨StatusMethodNotAllowed, Payload.empty⟩, tasks)

/-- The scan `for i, task := range tasks { if task.ID == taskID { ...; break } }` that the
PUT and the DELETE branch of `taskHandler` both run: the first index (counted from `i`)
whose task carries `taskID`, with that task, or `none` when the loop runs to its end. -/
def rangeFind (taskID : String) : List Task → Nat → Option (Nat × Task)
  | [], _ => none
  | task :: rest, i =>
    if task.ID = taskID then some (i, task) else rangeFind taskID rest (i + 1)

/-- Handle requests to the /task/{id} endpoint. -/
def taskHandler (decode : String → Except String Task)
    (tasks : List Task) (r : Request) : Response × List Task :=
  let taskID := TrimPrefix r.Path "/task/"
  if r.Method = "PUT" then
    match decode r.Body with
    | Except.error err => (httpError err StatusBadRequest, tasks)
    | Except.ok updatedTask =>
      match rangeFind taskID tasks 0 with
      | some (i, task) =>
        let updatedTask := { updatedTask with ID := task.ID }
        (⟨StatusOK, Payload.jsonTask updatedTask⟩, tasks.set i updatedTask)
      | none => (httpError "Task not found" StatusNotFound, tasks)
  else if r.Method = "DELETE" then
    match rangeFind taskID tasks 0 with
    | some (index, _) =>
      (⟨StatusOK, Payload.empty⟩, tasks.take index ++ tasks.drop (index + 1))
    | none => (httpError "Task not found" StatusNotFound, tasks)
  else
    (⟨StatusOK, Payload.empty⟩, tasks)

/-- The three registrations of `main`: `"/"`, `"/tasks"` and `"/task/"`. -/
inductive Route where
  | root
  | tasks
  | task
deriving DecidableEq, Repr

/-- The handler `main` registered for a route, run on one request. -/
def serve (decode : String → Except String Task) (uuid : String) :
    Route → List Task → Request → Response × List Task
  | Route.root, ts, r => rootHandler ts r
  | Route.tasks, ts, r => tasksHandler decode uuid ts r
  | Route.task, ts, r => taskHandler decode ts r

/-- The ids of a task sequence, in order. -/
def ids (ts : List Task) : List String := ts.map Task.ID

/-- Task sequences the server can hold: the initial `[]Task{}` and whatever a served request
leaves, where the id drawn for the request is not the id of a stored task. -/
inductive Reachable (decode : String → Except String Task) : List Task → Prop where
  | init : Reachable decode []
  | step (ts : List Task) (route : Route) (r : Request) (uuid : String) :
      Reachable decode ts → uuid ∉ ids ts → Reachable decode (serve decode uuid route ts r).2

/-- A decoder fixture for concrete evaluations, agreeing with `encoding/json` on four
bodies: the empty body (error `EOF`), two task objects without an id, and one with an id.
It is used on these four bodies only. -/
def sampleDecode (body : String) : Except String Task :=
  if body = "\x7b\"title\":\"Buy milk\",\"status\":\"pending\"\x7d" then
    Except.ok ⟨"", "Buy milk", "pending"⟩
  else if body = "\x7b\"title\":\"Buy milk\",\"status\":\"completed\"\x7d" then
    Except.ok ⟨"", "Buy milk", "completed"⟩
  else if body = "\x7b\"id\":\"zzz\",\"title\":\"Walk\",\"status\":\"done\"\x7d" then
    Except.ok ⟨"zzz", "Walk", "done"⟩
  else if body = "" then
    Except.error "EOF"
  else
    Except.error "invalid character"

/-! ## Basic facts -/

theorem TrimPrefix_task (id : String) : TrimPrefix ("/task/" ++ id) "/task/" = id := by
  unfold TrimPrefix
  have h : ("/task/" ++ id).data = "/task/".data ++ id.data := String.data_append _ _
  rw [h]
  simp

theorem rangeFind_none (taskID : String) :
    ∀ (l : List Task) (i : Nat), taskID ∉ ids l → rangeFind taskID l i = none := by
  intro l
  induction l with
  | nil => intro i _; rfl
  | cons a rest ih =>
    intro i h
    have ha : a.ID ≠ taskID := fun e => h (by simp [ids, e])
    have hr : taskID ∉ ids rest := fun m => h (by
      simp only [ids, List.map_cons, List.mem_cons] at m ⊢
      exact Or.inr m)
    simp [rangeFind, ha, ih (i + 1) hr]

theorem rangeFind_split (taskID : String) :
    ∀ (l : List Task) (i : Nat), taskID ∈ ids l →
      ∃ pre t post, l = pre ++ t :: post ∧ t.ID = taskID ∧ (∀ x ∈ pre, x.ID ≠ taskID) ∧
        rangeFind taskID l i = some (i + pre.length, t) := by
  intro l
  induction l with
  | nil => intro i h; simp [ids] at h
  | cons a rest ih =>
    intro i h
    by_cases ha : a.ID = taskID
    · exact ⟨[], a, rest, rfl, ha, by simp, by simp [rangeFind, ha]⟩
    · have hr : taskID ∈ ids rest := by
        simp only [ids, List.map_cons, List.mem_cons] at h ⊢
        rcases h with h | h
        · exact absurd h.symm ha
        · exact h
      obtain ⟨pre, t, post, hl, ht, hpre, hf⟩ := ih (i + 1) hr
      refine ⟨a :: pre, t, post, by simp [hl], ht, ?_, ?_⟩
      · intro x hx
        rcases List.mem_cons.mp hx with hx | hx
        · exact hx ▸ ha
        · exact hpre x hx
      · simp only [rangeFind, ha, if_false, hf, List.length_cons]
        congr 2
        omega

theorem set_split (pre post : List Task) (t u : Task) :
    (pre ++ t :: post).set pre.length u = pre ++ u :: post := by
  induction pre with
  | nil => rfl
  | cons a pre ih => simp [ih]

theorem getElem?_split (pre post : List Task) (t : Task) :
    (pre ++ t :: post)[pre.length]? = some t := by
  rw [List.getElem?_append_right (Nat.le_refl _)]
  simp

theorem take_drop_split (pre post : List Task) (t : Task) :
    (pre ++ t :: post).take pre.length ++ (pre ++ t :: post).drop (pre.length + 1)
      = pre ++ post := by
  induction pre with
  | nil => simp
  | cons a pre ih => simp

/-- PUT on a stored id with a decodable body: the first task carrying the id is replaced
by the body's title and status under the stored id. -/
theorem put_found (decode : String → Except String Task) (s : List Task)
    (taskID body : String) (b : Task) (hb : decode body = Except.ok b)
    (hid : taskID ∈ ids s) :
    ∃ pre t post, s = pre ++ t :: post ∧ t.ID = taskID ∧ (∀ x ∈ pre, x.ID ≠ taskID) ∧
      taskHandler decode s ⟨"PUT", "/task/" ++ taskID, body⟩ =
        (⟨200, Payload.jsonTask ⟨taskID, b.Title, b.Status⟩⟩,
          pre ++ ⟨taskID, b.Title, b.Status⟩ :: post) := by
  obtain ⟨pre, t, post, hl, ht, hpre, hf⟩ := rangeFind_split taskID s 0 hid
  refine ⟨pre, t, post, hl, ht, hpre, ?_⟩
  simp only [taskHandler, TrimPrefix_task, if_true, hb, hf, Nat.zero_add, StatusOK, ht]
  rw [hl, set_split]

/-- DELETE on a stored id: the first task carrying the id is cut out. -/
theorem delete_found (decode : String → Except String Task) (s : List Task)
    (taskID body : String) (hid : taskID ∈ ids s) :
    ∃ pre t post, s = pre ++ t :: post ∧ t.ID = taskID ∧ (∀ x ∈ pre, x.ID ≠ taskID) ∧
      taskHandler decode s ⟨"DELETE", "/task/" ++ taskID, body⟩ =
        (⟨200, Payload.empty⟩, pre ++ post) := by
  obtain ⟨pre, t, post, hl, ht, hpre, hf⟩ := rangeFind_split taskID s 0 hid
  refine ⟨pre, t, post, hl, ht, hpre, ?_⟩
  have hne : ¬ ("DELETE" = "PUT") := by decide
  simp only [taskHandler, TrimPrefix_task, hne, if_false, if_true, hf, Nat.zero_add, StatusOK]
  rw [hl, take_drop_split]

/-- PUT on an id no stored task carries, with a decodable body. -/
theorem put_missing (decode : String → Except String Task) (s : List Task)
    (taskID body : String) (b : Task) (hb : decode body = Except.ok b)
    (hid : taskID ∉ ids s) :
    taskHandler decode s ⟨"PUT", "/task/" ++ taskID, body⟩ =
      (⟨404, Payload.text "Task not found"⟩, s) := by
  simp [taskHandler, TrimPrefix_task, hb, rangeFind_none taskID s 0 hid, httpError,
    StatusNotFound]

/-- PUT with a body that does not decode. -/
theorem put_malformed (decode : String → Except String Task) (s : List Task)
    (path body err : String) (hb : decode body = Except.error err) :
    taskHandler decode s ⟨"PUT", path, body⟩ = (⟨400, Payload.text err⟩, s) := by
  simp [taskHandler, hb, httpError, StatusBadRequest]

/-- DELETE on an id no stored task carries. -/
theorem delete_missing (decode : String → Except String Task) (s : List Task)
    (taskID body : String) (hid : taskID ∉ ids s) :
    taskHandler decode s ⟨"DELETE", "/task/" ++ taskID, body⟩ =
      (⟨404, Payload.text "Task not found"⟩, s) := by
  have hne : ¬ ("DELETE" = "PUT") := by decide
  simp [taskHandler, TrimPrefix_task, hne, rangeFind_none taskID s 0 hid, httpError,
    StatusNotFound]

/-- POST on `/tasks` with a decodable body. -/
theorem post_ok (decode : String → Except String Task) (uuid : String) (s : List Task)
    (r : Request) (b : Task) (hm : r.Method = "POST") (hb : decode r.Body = Except.ok b) :
    tasksHandler decode uuid s r =
      (⟨201, Payload.jsonTask ⟨uuid, b.Title, b.Status⟩⟩, s ++ [⟨uuid, b.Title, b.Status⟩]) := by
  have hne : ¬ ("POST" = "GET") := by decide
  simp [tasksHandler, hm, hne, hb, StatusCreated]

/-- POST on `/tasks` with a body that does not decode. -/
theorem post_malformed (decode : String → Except String Task) (uuid : String) (s : List Task)
    (r : Request) (err : String) (hm : r.Method = "POST")
    (hb : decode r.Body = Except.error err) :
    tasksHandler decode uuid s r = (⟨400, Payload.text err⟩, s) := by
  have hne : ¬ ("POST" = "GET") := by decide
  simp [tasksHandler, hm, hne, hb, httpError, StatusBadRequest]

/-- What `taskHandler` can leave behind: the sequence itself, the sequence with one entry
replaced by a task of the same id, or the sequence with one entry cut out. -/
theorem taskHandler_shape (decode : String → Except String Task) (s : List Task)
    (r : Request) :
    (taskHandler decode s r).2 = s ∨
    (∃ pre t post u, s = pre ++ t :: post ∧ u.ID = t.ID ∧
      (taskHandler decode s r).2 = pre ++ u :: post) ∨
    (∃ pre t post, s = pre ++ t :: post ∧ (taskHandler decode s r).2 = pre ++ post) := by
  by_cases hid : TrimPrefix r.Path "/task/" ∈ ids s
  · obtain ⟨pre, t, post, hl, _, _, hf⟩ := rangeFind_split _ s 0 hid
    by_cases hput : r.Method = "PUT"
    · cases hd : decode r.Body with
      | error err => left; simp [taskHandler, hput, hd]
      | ok b =>
        right; left
        refine ⟨pre, t, post, ⟨t.ID, b.Title, b.Status⟩, hl, rfl, ?_⟩
        simp only [taskHandler, hput, if_true, hd, hf, Nat.zero_add]
        rw [hl, set_split]
    · by_cases hdel : r.Method = "DELETE"
      · right; right
        refine ⟨pre, t, post, hl, ?_⟩
        have hne : ¬ ("DELETE" = "PUT") := by decide
        simp only [taskHandler, hdel, hne, if_false, if_true, hf, Nat.zero_add]
        rw [hl, take_drop_split]
      · left; simp [taskHandler, hput, hdel]
  · left
    have hn := rangeFind_none _ s 0 hid
    by_cases hput : r.Method = "PUT"
    · cases hd : decode r.Body with
      | error err => simp [taskHandler, hput, hd]
      | ok b => simp [taskHandler, hput, hd, hn]
    · by_cases hdel : r.Method = "DELETE"
      · simp [taskHandler, hput, hdel, hn]
      · simp [taskHandler, hput, hdel]

/-- A request to `taskHandler` keeps the ids pairwise distinct. -/
theorem taskHandler_nodup (decode : String → Except String Task) (s : List Task)
    (r : Request) (hs : (ids s).Nodup) : (ids (taskHandler decode s r).2).Nodup := by
  rcases taskHandler_shape decode s r with h | ⟨pre, t, post, u, hl, hu2, h⟩ |
    ⟨pre, t, post, hl, h⟩
  · rw [h]; exact hs
  · rw [h]
    have : ids (pre ++ u :: post) = ids s := by simp [ids, hl, hu2]
    rw [this]; exact hs
  · rw [h]
    have hsub : (pre ++ post).Sublist s := by
      rw [hl]
      exact List.Sublist.append_left (List.sublist_cons_self t post) pre
    exact List.Nodup.sublist (List.Sublist.map Task.ID hsub) hs

/-- One served request keeps the ids pairwise distinct, when the id drawn for it is new. -/
theorem serve_nodup (decode : String → Except String Task) (uuid : String) (route : Route)
    (s : List Task) (r : Request) (hs : (ids s).Nodup) (hu : uuid ∉ ids s) :
    (ids (serve decode uuid route s r).2).Nodup := by
  cases route with
  | root => exact hs
  | tasks =>
    simp only [serve]
    by_cases hget : r.Method = "GET"
    · simpa [tasksHandler, hget] using hs
    · by_cases hpost : r.Method = "POST"
      · cases hd : decode r.Body with
        | error err => rw [post_malformed decode uuid s r err hpost hd]; exact hs
        | ok b =>
          rw [post_ok decode uuid s r b hpost hd]
          simp only [ids, List.map_append, List.map_cons, List.map_nil] at hs hu ⊢
          exact List.Nodup.append hs (List.nodup_singleton _)
            (List.disjoint_singleton.mpr hu)
      · simpa [tasksHandler, hget, hpost] using hs
  | task => exact taskHandler_nodup decode s r hs

/-! ## Id uniqueness -/

/-- C1: id uniqueness is an invariant. From a sequence with pairwise distinct ids, a POST
on `/tasks` (any body) whose generated id is not yet stored, a PUT on `/task/...` (any
path, any body) and a DELETE on `/task/...` (any path) each leave a sequence with pairwise
distinct ids; hence every reachable sequence has pairwise distinct ids. -/
theorem ids_unique_invariant (decode : String → Except String Task) :
    (∀ s : List Task, (ids s).Nodup →
      (∀ (uuid : String) (r : Request), r.Method = "POST" → uuid ∉ ids s →
        (ids (tasksHandler decode uuid s r).2).Nodup) ∧
      (∀ r : Request, r.Method = "PUT" → (ids (taskHandler decode s r).2).Nodup) ∧
      (∀ r : Request, r.Method = "DELETE" → (ids (taskHandler decode s r).2).Nodup)) ∧
    (∀ s : List Task, Reachable decode s → (ids s).Nodup) := by
  refine ⟨fun s hs => ⟨?_, ?_, ?_⟩, ?_⟩
  · intro uuid r _ hu
    exact serve_nodup decode uuid Route.tasks s r hs hu
  · intro r _
    exact taskHandler_nodup decode s r hs
  · intro r _
    exact taskHandler_nodup decode s r hs
  · intro s hr
    induction hr with
    | init => exact List.nodup_nil
    | step ts route r uuid _ hu ih => exact serve_nodup decode uuid route ts r ih hu

theorem ids_unique_invariant_witness :
    (ids [(⟨"a", "t", "pending"⟩ : Task), ⟨"b", "u", "pending"⟩]).Nodup ∧
    "c" ∉ ids [(⟨"a", "t", "pending"⟩ : Task), ⟨"b", "u", "pending"⟩] ∧
    (ids (tasksHandler sampleDecode "c" [⟨"a", "t", "pending"⟩, ⟨"b", "u", "pending"⟩]
      ⟨"POST", "/tasks", "\x7b\"id\":\"zzz\",\"title\":\"Walk\",\"status\":\"done\"\x7d"⟩).2).Nodup :=
  ⟨by decide, by decide,
    ((ids_unique_invariant sampleDecode).1 [⟨"a", "t", "pending"⟩, ⟨"b", "u", "pending"⟩]
      (by decide)).1 "c" _ rfl (by decide)⟩

/-! ## PUT -/

/-- C2: PUT preserves identity. For a path id carried by some stored task and a body that
decodes to `b`, PUT answers 200 with the task made of the path id and the title and status
of `b`, and that task stands in the sequence where the first task with the path id stood.
The id of `b` takes no part: any decoded body with the same title and status gives the same
response and the same sequence. -/
theorem put_preserves_identity (decode : String → Except String Task) (s : List Task)
    (taskID body : String) (b : Task) (hb : decode body = Except.ok b)
    (hid : taskID ∈ ids s) :
    (∃ pre t post, s = pre ++ t :: post ∧ t.ID = taskID ∧ (∀ x ∈ pre, x.ID ≠ taskID) ∧
      taskHandler decode s ⟨"PUT", "/task/" ++ taskID, body⟩ =
        (⟨200, Payload.jsonTask ⟨taskID, b.Title, b.Status⟩⟩,
          pre ++ ⟨taskID, b.Title, b.Status⟩ :: post)) ∧
    (∀ (decode2 : String → Except String Task) (bodyID : String),
      decode2 body = Except.ok ⟨bodyID, b.Title, b.Status⟩ →
      taskHandler decode2 s ⟨"PUT", "/task/" ++ taskID, body⟩ =
        taskHandler decode s ⟨"PUT", "/task/" ++ taskID, body⟩) := by
  refine ⟨put_found decode s taskID body b hb hid, ?_⟩
  intro decode2 bodyID hb2
  simp only [taskHandler, TrimPrefix_task, if_true, hb, hb2]

theorem put_preserves_identity_witness :
    (∃ pre t post, [(⟨"a", "t", "pending"⟩ : Task), ⟨"b", "u", "pending"⟩] = pre ++ t :: post ∧
      t.ID = "b" ∧ (∀ x ∈ pre, x.ID ≠ "b") ∧
      taskHandler sampleDecode [⟨"a", "t", "pending"⟩, ⟨"b", "u", "pending"⟩]
        ⟨"PUT", "/task/" ++ "b", "\x7b\"id\":\"zzz\",\"title\":\"Walk\",\"status\":\"done\"\x7d"⟩ =
        (⟨200, Payload.jsonTask ⟨"b", "Walk", "done"⟩⟩, pre ++ ⟨"b", "Walk", "done"⟩ :: post)) :=
  (put_preserves_identity sampleDecode [⟨"a", "t", "pending"⟩, ⟨"b", "u", "pending"⟩] "b"
    "\x7b\"id\":\"zzz\",\"title\":\"Walk\",\"status\":\"done\"\x7d" ⟨"zzz", "Walk", "done"⟩
    rfl (by decide)).1

/-- C8: PUT replaces in place. For a path id carried by some stored task and a body that
decodes to `b`, the sequence after PUT has the length of the sequence before, and there is
a position `i`, the first whose task carries the path id, such that the new sequence holds
at `i` the title and status of `b` under the id stored there, and agrees with the old
sequence at every other position; the ids are the same, in the same order. -/
theorem put_replaces_in_place (decode : String → Except String Task) (s : List Task)
    (taskID body : String) (b : Task) (hb : decode body = Except.ok b)
    (hid : taskID ∈ ids s) :
    (taskHandler decode s ⟨"PUT", "/task/" ++ taskID, body⟩).2.length = s.length ∧
    ids (taskHandler decode s ⟨"PUT", "/task/" ++ taskID, body⟩).2 = ids s ∧
    ∃ (i : Nat) (t : Task), s[i]? = some t ∧ t.ID = taskID ∧
      (∀ (k : Nat) (x : Task), k < i → s[k]? = some x → x.ID ≠ taskID) ∧
      (taskHandler decode s ⟨"PUT", "/task/" ++ taskID, body⟩).2[i]? =
        some ⟨t.ID, b.Title, b.Status⟩ ∧
      ∀ j : Nat, j ≠ i →
        (taskHandler decode s ⟨"PUT", "/task/" ++ taskID, body⟩).2[j]? = s[j]? := by
  obtain ⟨pre, t, post, hl, ht, hpre, h⟩ := put_found decode s taskID body b hb hid
  rw [h]
  subst hl
  refine ⟨by simp, by simp [ids, ht], pre.length, t, getElem?_split pre post t, ht, ?_, ?_, ?_⟩
  · intro k x hk hx
    rw [List.getElem?_append_left hk] at hx
    exact hpre x (List.getElem?_mem hx)
  · rw [ht]; exact getElem?_split pre post _
  · intro j hj
    rcases Nat.lt_or_gt_of_ne hj with hlt | hgt
    · simp [List.getElem?_append_left hlt]
    · have hle : pre.length ≤ j := Nat.le_of_lt hgt
      rw [List.getElem?_append_right hle, List.getElem?_append_right hle]
      obtain ⟨m, hm⟩ : ∃ m, j - pre.length = m + 1 := ⟨j - pre.length - 1, by omega⟩
      simp [hm]

theorem put_replaces_in_place_witness :
    (taskHandler sampleDecode [⟨"a", "t", "pending"⟩, ⟨"b", "u", "pending"⟩, ⟨"c", "v", "x"⟩]
      ⟨"PUT", "/task/" ++ "b",
        "\x7b\"id\":\"zzz\",\"title\":\"Walk\",\"status\":\"done\"\x7d"⟩).2.length = 3 ∧
    ids (taskHandler sampleDecode [⟨"a", "t", "pending"⟩, ⟨"b", "u", "pending"⟩, ⟨"c", "v", "x"⟩]
      ⟨"PUT", "/task/" ++ "b",
        "\x7b\"id\":\"zzz\",\"title\":\"Walk\",\"status\":\"done\"\x7d"⟩).2 = ["a", "b", "c"] :=
  ⟨(put_replaces_in_place sampleDecode
      [⟨"a", "t", "pending"⟩, ⟨"b", "u", "pending"⟩, ⟨"c", "v", "x"⟩] "b"
      "\x7b\"id\":\"zzz\",\"title\":\"Walk\",\"status\":\"done\"\x7d" ⟨"zzz", "Walk", "done"⟩
      rfl (by decide)).1,
    (put_replaces_in_place sampleDecode
      [⟨"a", "t", "pending"⟩, ⟨"b", "u", "pending"⟩, ⟨"c", "v", "x"⟩] "b"
      "\x7b\"id\":\"zzz\",\"title\":\"Walk\",\"status\":\"done\"\x7d" ⟨"zzz", "Walk", "done"⟩
      rfl (by decide)).2.1⟩

/-! ## DELETE -/

/-- C7: DELETE keeps the rest in order. For a path id carried by some stored task, the
sequence splits as `pre ++ t :: post` with `t` the first task carrying the path id, and
DELETE answers 200 with nothing written and leaves `pre ++ post`. -/
theorem delete_keeps_order (decode : String → Except String Task) (s : List Task)
    (taskID body : String) (hid : taskID ∈ ids s) :
    ∃ pre t post, s = pre ++ t :: post ∧ t.ID = taskID ∧ (∀ x ∈ pre, x.ID ≠ taskID) ∧
      taskHandler decode s ⟨"DELETE", "/task/" ++ taskID, body⟩ =
        (⟨200, Payload.empty⟩, pre ++ post) :=
  delete_found decode s taskID body hid

theorem delete_keeps_order_witness :
    ∃ pre t post, [(⟨"a", "t", "pending"⟩ : Task), ⟨"b", "u", "pending"⟩, ⟨"c", "v", "x"⟩] =
        pre ++ t :: post ∧ t.ID = "b" ∧ (∀ x ∈ pre, x.ID ≠ "b") ∧
      taskHandler sampleDecode [⟨"a", "t", "pending"⟩, ⟨"b", "u", "pending"⟩, ⟨"c", "v", "x"⟩]
        ⟨"DELETE", "/task/" ++ "b", ""⟩ = (⟨200, Payload.empty⟩, pre ++ post) :=
  delete_keeps_order sampleDecode [⟨"a", "t", "pending"⟩, ⟨"b", "u", "pending"⟩, ⟨"c", "v", "x"⟩]
    "b" "" (by decide)

/-- C3: DELETE removes exactly one. With pairwise distinct ids and a path id carried by
some stored task, DELETE answers 200, and the GET on `/tasks` that follows answers the
stored sequence, in which no task carries the path id and which is one shorter than the
sequence before the DELETE. -/
theorem delete_removes_exactly_one (decode : String → Except String Task) (uuid : String)
    (s : List Task) (taskID body getBody : String) (hs : (ids s).Nodup)
    (hid : taskID ∈ ids s) :
    (taskHandler decode s ⟨"DELETE", "/task/" ++ taskID, body⟩).1.status = 200 ∧
    ∃ l : List Task,
      (tasksHandler decode uuid (taskHandler decode s ⟨"DELETE", "/task/" ++ taskID, body⟩).2
        ⟨"GET", "/tasks", getBody⟩).1 = ⟨200, Payload.jsonTasks l⟩ ∧
      taskID ∉ ids l ∧ l.length + 1 = s.length := by
  obtain ⟨pre, t, post, hl, ht, _, h⟩ := delete_found decode s taskID body hid
  rw [h]
  refine ⟨rfl, pre ++ post, by simp [tasksHandler, StatusOK], ?_, by simp [hl]; omega⟩
  subst hl
  have hnd : (ids pre ++ t.ID :: ids post).Nodup := by simpa [ids] using hs
  have hparts := List.nodup_append.mp hnd
  have hmid := List.nodup_cons.mp hparts.2.1
  intro hmem
  have hmem2 : t.ID ∈ ids pre ++ ids post := by simpa [ids, ht] using hmem
  rcases List.mem_append.mp hmem2 with hp | hq
  · exact hparts.2.2 hp (List.mem_cons_self _ _)
  · exact hmid.1 hq

theorem delete_removes_exactly_one_witness :
    (taskHandler sampleDecode [⟨"a", "t", "pending"⟩, ⟨"b", "u", "pending"⟩]
      ⟨"DELETE", "/task/" ++ "a", ""⟩).1.status = 200 ∧
    ∃ l : List Task,
      (tasksHandler sampleDecode "u1"
        (taskHandler sampleDecode [⟨"a", "t", "pending"⟩, ⟨"b", "u", "pending"⟩]
          ⟨"DELETE", "/task/" ++ "a", ""⟩).2 ⟨"GET", "/tasks", ""⟩).1 =
        ⟨200, Payload.jsonTasks l⟩ ∧
      "a" ∉ ids l ∧ l.length + 1 = 2 :=
  delete_removes_exactly_one sampleDecode "u1" [⟨"a", "t", "pending"⟩, ⟨"b", "u", "pending"⟩]
    "a" "" "" (by decide) (by decide)

/-! ## Errors -/

/-- C4, as stated, fails: PUT on an empty store with the empty body, which does not decode,
answers 400 with the decode error although no stored task carries the path id. -/
theorem put_unknown_id_malformed_body_is_400 :
    "abc" ∉ ids [] ∧
    (taskHandler sampleDecode [] ⟨"PUT", "/task/" ++ "abc", ""⟩).1 = ⟨400, Payload.text "EOF"⟩ ∧
    (taskHandler sampleDecode [] ⟨"PUT", "/task/" ++ "abc", ""⟩).1 ≠
      ⟨404, Payload.text "Task not found"⟩ := by
  decide

/-- C4, amended: for a path id no stored task carries, a PUT whose body decodes and a
DELETE with any body each answer 404 with the message "Task not found" (and leave the
sequence as it was). -/
theorem not_found (decode : String → Except String Task) (s : List Task) (taskID : String)
    (hid : taskID ∉ ids s) :
    (∀ (body : String) (b : Task), decode body = Except.ok b →
      taskHandler decode s ⟨"PUT", "/task/" ++ taskID, body⟩ =
        (⟨404, Payload.text "Task not found"⟩, s)) ∧
    (∀ body : String,
      taskHandler decode s ⟨"DELETE", "/task/" ++ taskID, body⟩ =
        (⟨404, Payload.text "Task not found"⟩, s)) :=
  ⟨fun body b hb => put_missing decode s taskID body b hb hid,
    fun body => delete_missing decode s taskID body hid⟩

theorem not_found_witness :
    taskHandler sampleDecode [⟨"a", "t", "pending"⟩]
        ⟨"PUT", "/task/" ++ "b", "\x7b\"title\":\"Buy milk\",\"status\":\"completed\"\x7d"⟩ =
      (⟨404, Payload.text "Task not found"⟩, [⟨"a", "t", "pending"⟩]) ∧
    taskHandler sampleDecode [⟨"a", "t", "pending"⟩] ⟨"DELETE", "/task/" ++ "b", ""⟩ =
      (⟨404, Payload.text "Task not found"⟩, [⟨"a", "t", "pending"⟩]) :=
  ⟨(not_found sampleDecode [⟨"a", "t", "pending"⟩] "b" (by decide)).1 _
      ⟨"", "Buy milk", "completed"⟩ rfl,
    (not_found sampleDecode [⟨"a", "t", "pending"⟩] "b" (by decide)).2 ""⟩

/-- C6: malformed body. When the body does not decode, with error text `err`, POST on
`/tasks` and PUT on `/task/...` for every path id, stored or not, answer 400 with `err`
and leave the sequence as it was. -/
theorem malformed_body (decode : String → Except String Task) (uuid : String)
    (s : List Task) (body err : String) (hb : decode body = Except.error err) :
    tasksHandler decode uuid s ⟨"POST", "/tasks", body⟩ = (⟨400, Payload.text err⟩, s) ∧
    ∀ taskID : String,
      taskHandler decode s ⟨"PUT", "/task/" ++ taskID, body⟩ = (⟨400, Payload.text err⟩, s) :=
  ⟨post_malformed decode uuid s ⟨"POST", "/tasks", body⟩ err rfl hb,
    fun taskID => put_malformed decode s ("/task/" ++ taskID) body err hb⟩

theorem malformed_body_witness :
    tasksHandler sampleDecode "u1" [⟨"a", "t", "pending"⟩] ⟨"POST", "/tasks", ""⟩ =
      (⟨400, Payload.text "EOF"⟩, [⟨"a", "t", "pending"⟩]) ∧
    taskHandler sampleDecode [⟨"a", "t", "pending"⟩] ⟨"PUT", "/task/" ++ "a", ""⟩ =
      (⟨400, Payload.text "EOF"⟩, [⟨"a", "t", "pending"⟩]) ∧
    taskHandler sampleDecode [⟨"a", "t", "pending"⟩] ⟨"PUT", "/task/" ++ "b", ""⟩ =
      (⟨400, Payload.text "EOF"⟩, [⟨"a", "t", "pending"⟩]) :=
  ⟨(malformed_body sampleDecode "u1" [⟨"a", "t", "pending"⟩] "" "EOF" rfl).1,
    (malformed_body sampleDecode "u1" [⟨"a", "t", "pending"⟩] "" "EOF" rfl).2 "a",
    (malformed_body sampleDecode "u1" [⟨"a", "t", "pending"⟩] "" "EOF" rfl).2 "b"⟩

/-- C9: method not allowed. A request to `/tasks` whose method is neither GET nor POST is
answered 405 with nothing written. -/
theorem method_not_allowed (decode : String → Except String Task) (uuid : String)
    (s : List Task) (r : Request) (hget : r.Method ≠ "GET") (hpost : r.Method ≠ "POST") :
    (tasksHandler decode uuid s r).1 = ⟨405, Payload.empty⟩ := by
  simp [tasksHandler, hget, hpost, StatusMethodNotAllowed]

theorem method_not_allowed_witness :
    (tasksHandler sampleDecode "u1" [⟨"a", "t", "pending"⟩] ⟨"PATCH", "/tasks", ""⟩).1 =
      ⟨405, Payload.empty⟩ :=
  method_not_allowed sampleDecode "u1" [⟨"a", "t", "pending"⟩] ⟨"PATCH", "/tasks", ""⟩
    (by decide) (by decide)

/-! ## POST -/

/-- C5: POST/GET round trip. When the body decodes to `b`, POST on `/tasks` answers 201
with the task `t` made of the generated id and the title and status of `b`, whatever id
`b` carries, and the GET on `/tasks` that follows answers 200 with the sequence before the
POST followed by `t`. -/
theorem post_get_round_trip (decode : String → Except String Task) (uuid uuid2 : String)
    (s : List Task) (body getBody : String) (b : Task) (hb : decode body = Except.ok b) :
    (tasksHandler decode uuid s ⟨"POST", "/tasks", body⟩).1 =
      ⟨201, Payload.jsonTask ⟨uuid, b.Title, b.Status⟩⟩ ∧
    (tasksHandler decode uuid2 (tasksHandler decode uuid s ⟨"POST", "/tasks", body⟩).2
      ⟨"GET", "/tasks", getBody⟩).1 =
      ⟨200, Payload.jsonTasks (s ++ [⟨uuid, b.Title, b.Status⟩])⟩ := by
  rw [post_ok decode uuid s ⟨"POST", "/tasks", body⟩ b rfl hb]
  exact ⟨rfl, by simp [tasksHandler, StatusOK]⟩

theorem post_get_round_trip_witness :
    (tasksHandler sampleDecode "u1" [⟨"a", "t", "pending"⟩]
      ⟨"POST", "/tasks", "\x7b\"id\":\"zzz\",\"title\":\"Walk\",\"status\":\"done\"\x7d"⟩).1 =
      ⟨201, Payload.jsonTask ⟨"u1", "Walk", "done"⟩⟩ ∧
    (tasksHandler sampleDecode "u2" (tasksHandler sampleDecode "u1" [⟨"a", "t", "pending"⟩]
      ⟨"POST", "/tasks", "\x7b\"id\":\"zzz\",\"title\":\"Walk\",\"status\":\"done\"\x7d"⟩).2
      ⟨"GET", "/tasks", ""⟩).1 =
      ⟨200, Payload.jsonTasks ([⟨"a", "t", "pending"⟩] ++ [⟨"u1", "Walk", "done"⟩])⟩ :=
  post_get_round_trip sampleDecode "u1" "u2" [⟨"a", "t", "pending"⟩] _ "" ⟨"zzz", "Walk", "done"⟩ rfl

/-! ## Frame -/

/-- A request to `tasksHandler` that is not a POST with a decodable body leaves the
sequence as it was. -/
theorem tasksHandler_frame (decode : String → Except String Task) (uuid : String)
    (s : List Task) (r : Request)
    (h : ¬ (r.Method = "POST" ∧ ∃ b, decode r.Body = Except.ok b)) :
    (tasksHandler decode uuid s r).2 = s := by
  by_cases hget : r.Method = "GET"
  · simp [tasksHandler, hget]
  · by_cases hpost : r.Method = "POST"
    · cases hd : decode r.Body with
      | error err => rw [post_malformed decode uuid s r err hpost hd]
      | ok b => exact absurd ⟨hpost, b, hd⟩ h
    · simp [tasksHandler, hget, hpost]

/-- A request to `taskHandler` that is neither a PUT with a decodable body on a stored id
nor a DELETE on a stored id leaves the sequence as it was. -/
theorem taskHandler_frame (decode : String → Except String Task) (s : List Task)
    (r : Request)
    (hput : ¬ (r.Method = "PUT" ∧ (∃ b, decode r.Body = Except.ok b) ∧
      TrimPrefix r.Path "/task/" ∈ ids s))
    (hdel : ¬ (r.Method = "DELETE" ∧ TrimPrefix r.Path "/task/" ∈ ids s)) :
    (taskHandler decode s r).2 = s := by
  by_cases hp : r.Method = "PUT"
  · cases hd : decode r.Body with
    | error err => simp [taskHandler, hp, hd]
    | ok b =>
      have hid : TrimPrefix r.Path "/task/" ∉ ids s := fun hid => hput ⟨hp, ⟨b, hd⟩, hid⟩
      simp [taskHandler, hp, hd, rangeFind_none _ s 0 hid]
  · by_cases hd : r.Method = "DELETE"
    · have hid : TrimPrefix r.Path "/task/" ∉ ids s := fun hid => hdel ⟨hd, hid⟩
      simp [taskHandler, hp, hd, rangeFind_none _ s 0 hid]
    · simp [taskHandler, hp, hd]

/-- A response of `tasksHandler` with a status other than 201 comes with the sequence
as it was. -/
theorem tasksHandler_status_frame (decode : String → Except String Task) (uuid : String)
    (s : List Task) (r : Request) (h : (tasksHandler decode uuid s r).1.status ≠ 201) :
    (tasksHandler decode uuid s r).2 = s := by
  apply tasksHandler_frame
  rintro ⟨hpost, b, hd⟩
  rw [post_ok decode uuid s r b hpost hd] at h
  exact h rfl

/-- A response of `taskHandler` with a status other than 200 comes with the sequence
as it was. -/
theorem taskHandler_status_frame (decode : String → Except String Task) (s : List Task)
    (r : Request) (h : (taskHandler decode s r).1.status ≠ 200) :
    (taskHandler decode s r).2 = s := by
  apply taskHandler_frame
  · rintro ⟨hp, ⟨b, hd⟩, hid⟩
    obtain ⟨pre, t, post, _, _, _, hf⟩ := rangeFind_split _ s 0 hid
    simp [taskHandler, hp, hd, hf, StatusOK] at h
  · rintro ⟨hd, hid⟩
    obtain ⟨pre, t, post, _, _, _, hf⟩ := rangeFind_split _ s 0 hid
    have hne : ¬ ("DELETE" = "PUT") := by decide
    simp [taskHandler, hd, hne, hf, StatusOK] at h

/-- C10: no other mutation paths. A served request that is not a POST on `/tasks` with a
decodable body, nor a PUT on `/task/...` with a decodable body and a stored path id, nor a
DELETE on `/task/...` with a stored path id, leaves the sequence as it was. In particular
so does every request to `/`, every GET on `/tasks`, every request answered 400, 404 or
405, and every request to `/task/...` with a method other than PUT and DELETE. -/
theorem no_other_mutation (decode : String → Except String Task) (uuid : String)
    (s : List Task) :
    (∀ (route : Route) (r : Request),
      ¬ (route = Route.tasks ∧ r.Method = "POST" ∧ ∃ b, decode r.Body = Except.ok b) →
      ¬ (route = Route.task ∧ r.Method = "PUT" ∧ (∃ b, decode r.Body = Except.ok b) ∧
          TrimPrefix r.Path "/task/" ∈ ids s) →
      ¬ (route = Route.task ∧ r.Method = "DELETE" ∧ TrimPrefix r.Path "/task/" ∈ ids s) →
      (serve decode uuid route s r).2 = s) ∧
    (∀ r : Request, (serve decode uuid Route.root s r).2 = s) ∧
    (∀ r : Request, r.Method = "GET" → (serve decode uuid Route.tasks s r).2 = s) ∧
    (∀ (route : Route) (r : Request),
      (serve decode uuid route s r).1.status = 400 ∨
        (serve decode uuid route s r).1.status = 404 ∨
        (serve decode uuid route s r).1.status = 405 →
      (serve decode uuid route s r).2 = s) ∧
    (∀ r : Request, r.Method ≠ "PUT" → r.Method ≠ "DELETE" →
      (serve decode uuid Route.task s r).2 = s) := by
  refine ⟨?_, fun _ => rfl, ?_, ?_, ?_⟩
  · intro route r hpost hput hdel
    cases route with
    | root => rfl
    | tasks => exact tasksHandler_frame decode uuid s r (fun h => hpost ⟨rfl, h⟩)
    | task =>
      exact taskHandler_frame decode s r (fun h => hput ⟨rfl, h⟩) (fun h => hdel ⟨rfl, h⟩)
  · intro r hget
    exact tasksHandler_frame decode uuid s r (fun h => by
      have hne : ¬ ("GET" = "POST") := by decide
      exact hne (hget ▸ h.1))
  · intro route r hst
    cases route with
    | root => rfl
    | tasks =>
      apply tasksHandler_status_frame
      simp only [serve] at hst
      omega
    | task =>
      apply taskHandler_status_frame
      simp only [serve] at hst
      omega
  · intro r hp hd
    exact taskHandler_frame decode s r (fun h => hp h.1) (fun h => hd h.1)

theorem no_other_mutation_witness :
    (serve sampleDecode "u1" Route.task [⟨"a", "t", "pending"⟩]
        ⟨"PUT", "/task/a", ""⟩).2 = [⟨"a", "t", "pending"⟩] ∧
    (serve sampleDecode "u1" Route.task [⟨"a", "t", "pending"⟩]
        ⟨"DELETE", "/task/b", ""⟩).2 = [⟨"a", "t", "pending"⟩] ∧
    (serve sampleDecode "u1" Route.tasks [⟨"a", "t", "pending"⟩]
        ⟨"POST", "/tasks", ""⟩).2 = [⟨"a", "t", "pending"⟩] :=
  ⟨(no_other_mutation sampleDecode "u1" [⟨"a", "t", "pending"⟩]).1 Route.task
      ⟨"PUT", "/task/a", ""⟩
      (fun h => absurd h.1 (by decide))
      (fun h => by
        obtain ⟨_, _, ⟨b, hb⟩, _⟩ := h
        simp [sampleDecode] at hb)
      (fun h => absurd h.2.1 (by decide)),
    (no_other_mutation sampleDecode "u1" [⟨"a", "t", "pending"⟩]).1 Route.task
      ⟨"DELETE", "/task/b", ""⟩
      (fun h => absurd h.1 (by decide))
      (fun h => absurd h.2.1 (by decide))
      (fun h => absurd h.2.2 (by decide)),
    (no_other_mutation sampleDecode "u1" [⟨"a", "t", "pending"⟩]).1 Route.tasks
      ⟨"POST", "/tasks", ""⟩
      (fun h => by
        obtain ⟨_, _, ⟨b, hb⟩⟩ := h
        simp [sampleDecode] at hb)
      (fun h => absurd h.1 (by decide))
      (fun h => absurd h.1 (by decide))⟩

end GoCRUD
